import Mathlib

/-!
Shallow embedding of the content-queue core of the social-app-scraper
repository: the `Post` value object (`common/models/models.py`), the bounded
SQLite-backed store (`handlers/db_handler.py`), the queue orchestration
(`handlers/news_queue.py`), the similarity filter and translation call
(`handlers/ml_handler.py`) and the publish guard of `schedule_script.py`.

Timestamps are modelled as natural numbers (seconds); the SQLite table is
modelled as a list of rows in rowid (insertion) order.  The `url` column is
declared `UNIQUE` and `url`, `title`, `desc`, `image_url`, `created_at`,
`source`, `status` are declared `NOT NULL`; since `Post.image_url` is the one
`NOT NULL` column fed from an `Optional` attribute, an insert or update that
passes a missing image raises `sqlite3.IntegrityError`, which the handler
catches and turns into `False`.
-/

/-- Post dataclass from `common/models/models.py`.  All optional fields
default to `none`; `status` defaults to `"queued"`. -/
structure Post where
  title : String
  desc : String
  url : String
  image_url : Option String := none
  created_at : Option Nat := none
  source : Option String := none
  english_title : Option String := none
  english_summary : Option String := none
  ukrainian_title : Option String := none
  ukrainian_summary : Option String := none
  full_text : Option String := none
  status : String := "queued"
  deriving DecidableEq

/-- One row of the `posts` table created by `DatabaseHandler._init_db`.
Columns declared `NOT NULL` are plain values, nullable columns are `Option`. -/
structure DBRecord where
  url : String
  title : String
  desc : String
  image_url : String
  english_summary : Option String
  ukrainian_title : Option String
  ukrainian_summary : Option String
  created_at : Nat
  source : String
  status : String
  full_text : Option String
  deriving DecidableEq

/-- State of a `DatabaseHandler`: the rows of the `posts` table in rowid
order together with the configured `max_posts` capacity. -/
structure DB where
  records : List DBRecord
  max_posts : Nat
  deriving DecidableEq

/-- Minimum of the `created_at` column, `none` on an empty table.  This is the
value selected by `SELECT id FROM posts ORDER BY created_at ASC LIMIT 1`. -/
def minCreated : List DBRecord → Option Nat
  | [] => none
  | r :: rs =>
    match minCreated rs with
    | none => some r.created_at
    | some m => some (min r.created_at m)

/-- Effect of `DELETE FROM posts WHERE id = (SELECT id FROM posts ORDER BY
created_at ASC LIMIT 1)`: the first row holding the minimal `created_at`
is removed; an empty table is left unchanged. -/
def removeOldest (l : List DBRecord) : List DBRecord :=
  match minCreated l with
  | none => l
  | some m => l.eraseP (fun r => decide (r.created_at = m))

/-- The row that `DatabaseHandler.add_post` inserts for `post` (the
`INSERT INTO posts ...` at lines 82-100), as a list: empty when the insert
violates the `NOT NULL` constraint on `image_url` (the raised
`sqlite3.IntegrityError` is caught and the function returns `False`). -/
def newRecords (post : Post) (source : String) (now : Nat) : List DBRecord :=
  match post.image_url with
  | none => []
  | some img =>
      [{ url := post.url
         title := post.title
         desc := post.desc
         image_url := img
         english_summary := post.english_summary
         ukrainian_title := post.ukrainian_title
         ukrainian_summary := post.ukrainian_summary
         created_at := post.created_at.getD now
         source := source
         status := post.status
         full_text := post.full_text }]

/-- `DatabaseHandler.add_post`.  Returns `False` untouched if the `url` is
already present; otherwise, if the row count is at or above `max_posts`, the
oldest row is deleted first (and that delete is committed even when the
subsequent insert fails); finally the new row is appended.  `now` stands for
`datetime.now()`, used when `post.created_at` is `None`.  Note that
`getattr(post, 'status', 'queued')` always finds the dataclass attribute, so
the stored status is the status carried by the post. -/
def add_post (db : DB) (post : Post) (source : String) (now : Nat) : Bool × DB :=
  if (db.records.find? (fun r => r.url == post.url)).isSome then
    (false, db)
  else
    let db1 : DB :=
      if db.max_posts ≤ db.records.length then
        { db with records := removeOldest db.records }
      else db
    match post.image_url with
    | none => (false, db1)
    | some _ => (true, { db1 with records := db1.records ++ newRecords post source now })

/-- Insertion of a row into a list sorted by `created_at` descending. -/
def insertDesc (r : DBRecord) : List DBRecord → List DBRecord
  | [] => [r]
  | s :: rest =>
    if s.created_at ≤ r.created_at then r :: s :: rest else s :: insertDesc r rest

/-- Effect of `ORDER BY created_at DESC` (ties in an unspecified order, here
kept stable). -/
def sortDesc : List DBRecord → List DBRecord
  | [] => []
  | r :: rest => insertDesc r (sortDesc rest)

/-- Conversion done by `DatabaseHandler.get_all_posts` on each fetched row:
the `SELECT` includes `full_text`, and `source`, `status`, `full_text` are
assigned on the constructed `Post` after construction.  `english_title` is
never read back. -/
def recordToPostFull (r : DBRecord) : Post :=
  { title := r.title
    desc := r.desc
    url := r.url
    image_url := some r.image_url
    created_at := some r.created_at
    source := some r.source
    english_summary := r.english_summary
    ukrainian_title := r.ukrainian_title
    ukrainian_summary := r.ukrainian_summary
    full_text := r.full_text
    status := r.status }

/-- Conversion done by `DatabaseHandler.get_post_by_url` on the fetched row:
its `SELECT` list stops at `status` and does not include `full_text`, so the
constructed `Post` keeps the dataclass default `full_text = None`. -/
def recordToPostNoFullText (r : DBRecord) : Post :=
  { title := r.title
    desc := r.desc
    url := r.url
    image_url := some r.image_url
    created_at := some r.created_at
    source := some r.source
    english_summary := r.english_summary
    ukrainian_title := r.ukrainian_title
    ukrainian_summary := r.ukrainian_summary
    status := r.status }

/-- Row filter of `DatabaseHandler.get_all_posts`: optional `source`,
`status` and `since` conditions combined with AND
(`created_at >= since` for the date condition). -/
def rowMatches (source status : Option String) (since : Option Nat)
    (r : DBRecord) : Bool :=
  (match source with | none => true | some s => r.source == s) &&
  (match status with | none => true | some s => r.status == s) &&
  (match since with | none => true | some t => t ≤ r.created_at)

/-- `DatabaseHandler.get_all_posts`: filter, order newest-first, convert. -/
def get_all_posts (db : DB) (source status : Option String) (since : Option Nat) :
    List Post :=
  (sortDesc (db.records.filter (rowMatches source status since))).map recordToPostFull

/-- `DatabaseHandler.get_post_by_url`: point `SELECT ... WHERE url = ?` with
`fetchone`, converting without the `full_text` column. -/
def get_post_by_url (db : DB) (url : String) : Option Post :=
  (db.records.find? (fun r => r.url == url)).map recordToPostNoFullText

/-- The row produced by the `UPDATE posts SET ...` of
`DatabaseHandler.update_post` for a matching row `r`: every `SET` field is
overwritten from the given post — including `created_at`, set to
`post.created_at or datetime.now()` — while `url`, `source` and the rowid are
not in the `SET` list and are kept. -/
def overwriteRecord (r : DBRecord) (post : Post) (now : Nat) : DBRecord :=
  { url := r.url
    title := post.title
    desc := post.desc
    image_url := post.image_url.getD r.image_url
    english_summary := post.english_summary
    ukrainian_title := post.ukrainian_title
    ukrainian_summary := post.ukrainian_summary
    created_at := post.created_at.getD now
    source := r.source
    status := post.status
    full_text := post.full_text }

/-- `DatabaseHandler.update_post`.  When the post carries no `image_url` the
`UPDATE` would write `NULL` into the `NOT NULL` column `image_url`; the raised
`sqlite3.IntegrityError` is caught and the call returns `False` with nothing
changed.  Otherwise every row whose `url` matches (at most one, by the
`UNIQUE` constraint) is overwritten and the call returns `rowcount > 0`. -/
def update_post (db : DB) (post : Post) (now : Nat) : Bool × DB :=
  match post.image_url with
  | none => (false, db)
  | some _ =>
      ((db.records.find? (fun r => r.url == post.url)).isSome,
       { db with
           records := db.records.map (fun r =>
             if r.url == post.url then overwriteRecord r post now else r) })

/-- `DatabaseHandler.update_post_status`: `UPDATE posts SET status = ?
WHERE url = ?`, returning `rowcount > 0`. -/
def update_post_status (db : DB) (url status : String) : Bool × DB :=
  ((db.records.find? (fun r => r.url == url)).isSome,
   { db with
       records := db.records.map (fun r =>
         if r.url == url then { r with status := status } else r) })

/-- `DatabaseHandler.get_recent_posts`: `since := now - days` and delegate to
`get_all_posts` (one day is 86400 seconds). -/
def get_recent_posts (db : DB) (now days : Nat) (source status : Option String) :
    List Post :=
  get_all_posts db source status (some (now - days * 86400))

/-- `NewsQueue.add_news` in the deployed configuration (`gemini_api_key` is
`None`, as in `NewsQueue(max_posts=1000)` of `schedule_script.py`, so the
relevance branch and the per-post ML branch are inactive; the
`existing_posts = get_all_posts()` fetched at the top of the function is never
used).  For each post in order: skip it when `get_post_by_url` finds its
`url`; otherwise set `post.status = 'queued'` and call `add_post`, collecting
the post when the insert returns `True`. -/
def add_news (db : DB) (posts : List Post) (source : String) (now : Nat) :
    List Post × DB :=
  match posts with
  | [] => ([], db)
  | p :: rest =>
    if (get_post_by_url db p.url).isSome then add_news db rest source now
    else
      let p' := { p with status := "queued" }
      let step := add_post db p' source now
      let tail := add_news step.2 rest source now
      (if step.1 then p' :: tail.1 else tail.1, tail.2)

/-- `NewsQueue.process_posts`: list all posts with `status = 'queued'`, set
each of their statuses to `'processing'` via `update_post_status`, and return
the pre-update list. -/
def process_posts (db : DB) : List Post × DB :=
  let queued := get_all_posts db none (some "queued") none
  (queued, queued.foldl (fun d post => (update_post_status d post.url "processing").2) db)

/-- `filter_similar_posts` from `handlers/ml_handler.py`: the body is
`return new_posts` — the docstring states that the similarity filtering has
been removed and the function is a placeholder. -/
def filter_similar_posts (new_posts existing_posts : List Post) (threshold : ℚ) :
    List Post :=
  new_posts

/-- Outcome of parsing the LLM response inside
`ml_handler.get_article_translation`: either the cleaned response text parsed
as JSON (each expected key present or absent), or JSON parsing failed and the
four per-field regex fallbacks each matched or not, or the surrounding
`try` caught an exception (network failure, missing response text). -/
inductive TranslationResponse where
  | parsed (uk_title en_title en_text uk_text : Option String)
  | regexFallback (uk_title en_title en_text uk_text : Option String)
  | failure
  deriving DecidableEq

/-- Return discipline of `ml_handler.get_article_translation`: on a parsed
JSON object it returns the four values only when all four keys are present,
otherwise `(None, None, None, None)`; on the regex fallback it returns the
four captures only when all four patterns matched, otherwise
`(None, None, None, None)`; on an exception `(None, None, None, None)`.
The HTML-tag fix-ups only rewrite the strings and do not affect presence. -/
def get_article_translation (resp : TranslationResponse) :
    Option String × Option String × Option String × Option String :=
  match resp with
  | .parsed (some a) (some b) (some c) (some d) => (some a, some b, some c, some d)
  | .parsed _ _ _ _ => (none, none, none, none)
  | .regexFallback (some a) (some b) (some c) (some d) => (some a, some b, some c, some d)
  | .regexFallback _ _ _ _ => (none, none, none, none)
  | .failure => (none, none, none, none)

/-- Python truthiness of an optional string: `None` and the empty string are
falsy. -/
def truthyStr : Option String → Bool
  | none => false
  | some s => !(s == "")

/-- Publish guard of `schedule_script.process_news_queue`: the post is sent to
the content API (`api_handler.add_post`) only inside the branch
`if uk_title and en_title and en_text and uk_text:`.  The value is whether the
publish call is reached for a relevant post, given the parse outcome of its
translation call. -/
def publishReached (resp : TranslationResponse) : Bool :=
  let t := get_article_translation resp
  truthyStr t.1 && truthyStr t.2.1 && truthyStr t.2.2.1 && truthyStr t.2.2.2

/-- Repeated `add_post` calls, one per element: the sequences of inserts that
the capacity claim quantifies over. -/
def applyInserts (db : DB) : List (Post × String × Nat) → DB
  | [] => db
  | (p, src, now) :: rest => applyInserts (add_post db p src now).2 rest

/-- Well-formedness maintained by the `UNIQUE NOT NULL` constraint on the
`url` column: no two rows share a `url`. -/
def wfDB (db : DB) : Prop :=
  (db.records.map (fun r => r.url)).Nodup

/-! ### Helper lemmas about the store primitives -/

theorem minCreated_eq_none : ∀ {l : List DBRecord}, minCreated l = none ↔ l = []
  | [] => by simp [minCreated]
  | r :: rs => by
      cases h : minCreated rs <;> simp [minCreated, h]

theorem minCreated_mem :
    ∀ {l : List DBRecord} {m : Nat}, minCreated l = some m →
      ∃ r ∈ l, r.created_at = m
  | [], m => by simp [minCreated]
  | r :: rs, m => by
      intro h
      cases hrs : minCreated rs with
      | none =>
        simp [minCreated, hrs] at h
        exact ⟨r, by simp, h⟩
      | some m' =>
        simp [minCreated, hrs] at h
        rcases le_total r.created_at m' with hle | hle
        · exact ⟨r, by simp, by omega⟩
        · obtain ⟨s, hs, hsm⟩ := minCreated_mem hrs
          exact ⟨s, by simp [hs], by omega⟩

theorem minCreated_le :
    ∀ {l : List DBRecord} {m : Nat}, minCreated l = some m →
      ∀ r ∈ l, m ≤ r.created_at
  | [], m => by simp [minCreated]
  | r :: rs, m => by
      intro h s hs
      cases hrs : minCreated rs with
      | none =>
        have hnil : rs = [] := minCreated_eq_none.mp hrs
        subst hnil
        simp at hs
        subst hs
        simp [minCreated] at h
        omega
      | some m' =>
        simp [minCreated, hrs] at h
        rcases List.mem_cons.mp hs with rfl | hmem
        · omega
        · have := minCreated_le hrs s hmem
          omega

/-- Decomposition of an eviction on a non-empty table: the removed row is a
row with minimal `created_at`, the remaining rows keep their order. -/
theorem removeOldest_spec {l : List DBRecord} (h : l ≠ []) :
    ∃ r l₁ l₂, l = l₁ ++ r :: l₂ ∧ removeOldest l = l₁ ++ l₂ ∧
      ∀ s ∈ l, r.created_at ≤ s.created_at := by
  cases hm : minCreated l with
  | none => exact absurd (minCreated_eq_none.mp hm) h
  | some m =>
    obtain ⟨r, hr, hrm⟩ := minCreated_mem hm
    obtain ⟨a, l₁, l₂, _, h₂, h₃, h₄⟩ :=
      List.exists_of_eraseP (p := fun s => decide (s.created_at = m)) hr (by simp [hrm])
    refine ⟨a, l₁, l₂, h₃, ?_, ?_⟩
    · simp [removeOldest, hm, h₄]
    · intro s hs
      have ham : a.created_at = m := by simpa using h₂
      exact ham ▸ minCreated_le hm s hs

theorem removeOldest_length {l : List DBRecord} (h : l ≠ []) :
    (removeOldest l).length = l.length - 1 := by
  obtain ⟨r, l₁, l₂, h₁, h₂, _⟩ := removeOldest_spec h
  subst h₁
  simp [h₂]

theorem insertDesc_perm (r : DBRecord) :
    ∀ l : List DBRecord, (insertDesc r l).Perm (r :: l)
  | [] => List.Perm.refl _
  | s :: rest => by
      unfold insertDesc
      split
      · exact List.Perm.refl _
      · exact ((insertDesc_perm r rest).cons s).trans (List.Perm.swap r s rest)

theorem sortDesc_perm : ∀ l : List DBRecord, (sortDesc l).Perm l
  | [] => List.Perm.refl _
  | r :: rest =>
      (insertDesc_perm r (sortDesc rest)).trans ((sortDesc_perm rest).cons r)

theorem mem_sortDesc {r : DBRecord} {l : List DBRecord} :
    r ∈ sortDesc l ↔ r ∈ l :=
  (sortDesc_perm l).mem_iff

theorem newRecords_length_le (p : Post) (src : String) (now : Nat) :
    (newRecords p src now).length ≤ 1 := by
  cases h : p.image_url <;> simp [newRecords, h]

theorem add_post_max_posts (db : DB) (p : Post) (src : String) (now : Nat) :
    (add_post db p src now).2.max_posts = db.max_posts := by
  unfold add_post
  split
  · rfl
  · cases h : p.image_url <;> split <;> simp

/-- One insert keeps a store that is within a positive capacity within it. -/
theorem add_post_length_bound (db : DB) (p : Post) (src : String) (now : Nat)
    (hmax : 1 ≤ db.max_posts) (h : db.records.length ≤ db.max_posts) :
    (add_post db p src now).2.records.length ≤ db.max_posts := by
  unfold add_post
  split
  · exact h
  · have hnew := newRecords_length_le p src now
    by_cases hfull : db.max_posts ≤ db.records.length
    · have hlen : db.records.length = db.max_posts := le_antisymm h hfull
      have hne : db.records ≠ [] := by
        intro hnil
        rw [hnil] at hlen
        simp at hlen
        omega
      have hrem := removeOldest_length hne
      cases himg : p.image_url <;> simp [himg, hfull, hrem] <;> omega
    · cases himg : p.image_url <;> simp [himg, hfull] <;> omega

theorem applyInserts_max_posts :
    ∀ (ops : List (Post × String × Nat)) (db : DB),
      (applyInserts db ops).max_posts = db.max_posts
  | [], db => rfl
  | (p, src, now) :: rest, db => by
      rw [applyInserts, applyInserts_max_posts rest, add_post_max_posts]

theorem applyInserts_length_le :
    ∀ (ops : List (Post × String × Nat)) (db : DB),
      1 ≤ db.max_posts → db.records.length ≤ db.max_posts →
      (applyInserts db ops).records.length ≤ db.max_posts
  | [], db => fun _ h => h
  | (p, src, now) :: rest, db => fun h1 h2 => by
      have hmax := add_post_max_posts db p src now
      have hb := add_post_length_bound db p src now h1 h2
      have hrec := applyInserts_length_le rest (add_post db p src now).2
        (by rw [hmax]; exact h1) (by rw [hmax]; exact hb)
      rw [applyInserts]
      rw [hmax] at hrec
      exact hrec

/-- Statement that an insert on `db` evicts a row with minimal `created_at`
among the rows present immediately before the eviction, keeping the other
rows in order and then appending the new row (when the insert itself goes
through). -/
def evictionIsOldest (db : DB) (p : Post) (src : String) (now : Nat) : Prop :=
  ∃ r l₁ l₂, db.records = l₁ ++ r :: l₂ ∧
    (∀ s ∈ db.records, r.created_at ≤ s.created_at) ∧
    (add_post db p src now).2.records = (l₁ ++ l₂) ++ newRecords p src now

/-- C1 (amended: capacity at least 1): starting from a store within a
positive capacity, any sequence of inserts leaves the store within capacity;
and whenever an insert evicts (fresh `url`, row count at or above capacity,
table non-empty), the evicted row is one with minimal `created_at` among the
rows present immediately before the eviction. -/
theorem add_post_capacity_bound_and_oldest_eviction :
    (∀ (db : DB) (ops : List (Post × String × Nat)),
       1 ≤ db.max_posts → db.records.length ≤ db.max_posts →
       (applyInserts db ops).records.length ≤ db.max_posts)
    ∧ (∀ (db : DB) (p : Post) (src : String) (now : Nat),
         (db.records.find? (fun r => r.url == p.url)).isSome = false →
         db.max_posts ≤ db.records.length →
         db.records ≠ [] →
         evictionIsOldest db p src now) := by
  constructor
  · intro db ops h1 h2
    exact applyInserts_length_le ops db h1 h2
  · intro db p src now hfind hfull hne
    obtain ⟨r, l₁, l₂, hdec, hrem, hmin⟩ := removeOldest_spec hne
    refine ⟨r, l₁, l₂, hdec, hmin, ?_⟩
    unfold add_post
    cases himg : p.image_url <;>
      simp [hfind, hfull, himg, newRecords, hrem]

/-- Concrete row used by witnesses. -/
def sampleRec (u : String) (t : Nat) : DBRecord :=
  { url := u
    title := "t"
    desc := "d"
    image_url := "i"
    english_summary := none
    ukrainian_title := none
    ukrainian_summary := none
    created_at := t
    source := "s"
    status := "queued"
    full_text := none }

/-- Concrete post used by witnesses and counterexamples. -/
def samplePost (u : String) (t : Nat) : Post :=
  { title := "t", desc := "d", url := u, image_url := some "i", created_at := some t }

/-- C1 counterexample: with the configured capacity `max_posts = 0` the store
starts within capacity (it is empty) yet a single insert leaves one record in
the store — the count check `count >= self.max_posts` deletes nothing from an
empty table and the insert then goes through, so the bound fails for that
configuration. -/
theorem add_post_zero_capacity_counterexample :
    (DB.mk [] 0).records.length ≤ (DB.mk [] 0).max_posts ∧
    ¬ ((applyInserts (DB.mk [] 0) [(samplePost "u" 5, "bbc", 7)]).records.length ≤
        (DB.mk [] 0).max_posts) := by
  decide

/-- C1 witness: a store of two rows at capacity 2 stays within capacity under
further inserts, and the insert that evicts removes the oldest row. -/
theorem add_post_capacity_witness :
    ((applyInserts (DB.mk [sampleRec "a" 9, sampleRec "b" 4] 2)
        [(samplePost "c" 6, "bbc", 7), (samplePost "e" 8, "bbc", 9)]).records.length ≤ 2) ∧
    evictionIsOldest (DB.mk [sampleRec "a" 9, sampleRec "b" 4] 2) (samplePost "c" 6) "bbc" 7 := by
  constructor
  · exact add_post_capacity_bound_and_oldest_eviction.1
      (DB.mk [sampleRec "a" 9, sampleRec "b" 4] 2) _ (by decide) (by decide)
  · exact add_post_capacity_bound_and_oldest_eviction.2
      (DB.mk [sampleRec "a" 9, sampleRec "b" 4] 2) (samplePost "c" 6) "bbc" 7
      (by decide) (by decide) (by decide)

theorem removeOldest_length_le (l : List DBRecord) :
    (removeOldest l).length ≤ l.length := by
  unfold removeOldest
  cases minCreated l
  · exact le_refl _
  · exact List.length_eraseP_le l

theorem add_post_length_le (db : DB) (p : Post) (src : String) (now : Nat) :
    (add_post db p src now).2.records.length ≤ db.records.length + 1 := by
  have hrem := removeOldest_length_le db.records
  unfold add_post
  by_cases hdup : ((db.records.find? fun r => r.url == p.url).isSome = true)
  · simp [hdup]
  · cases himg : p.image_url <;> simp [hdup, himg, newRecords] <;> split <;> simp <;> omega

theorem add_post_length_of_false (db : DB) (p : Post) (src : String) (now : Nat)
    (h : (add_post db p src now).1 = false) :
    (add_post db p src now).2.records.length ≤ db.records.length := by
  have hrem := removeOldest_length_le db.records
  unfold add_post at h ⊢
  by_cases hdup : ((db.records.find? fun r => r.url == p.url).isSome = true)
  · simp [hdup]
  · cases himg : p.image_url
    · simp [hdup, himg]
      split <;> simp <;> omega
    · simp [hdup, himg] at h

theorem mem_url_after_success (db : DB) (p : Post) (src : String) (now : Nat)
    (h : (add_post db p src now).1 = true) :
    ∃ r ∈ (add_post db p src now).2.records, r.url = p.url := by
  unfold add_post at h ⊢
  by_cases hdup : ((db.records.find? fun r => r.url == p.url).isSome = true)
  · simp [hdup] at h
  · cases himg : p.image_url
    · simp [hdup, himg] at h
    · have hrec : ∃ r ∈ newRecords p src now, r.url = p.url := by
        simp [newRecords, himg]
      obtain ⟨r, hr, hu⟩ := hrec
      simp only [hdup, himg, if_neg, Bool.not_eq_true]
      refine ⟨r, ?_, hu⟩
      simpa using Or.inr hr


theorem add_post_dup_eq (db : DB) (p : Post) (src : String) (now : Nat)
    (h : ((db.records.find? fun r => r.url == p.url).isSome = true)) :
    add_post db p src now = (false, db) := by
  unfold add_post
  simp [h]

theorem add_post_second_dup_eq (db : DB) (p q : Post) (s1 s2 : String) (n1 n2 : Nat)
    (hurl : p.url = q.url) (h : (add_post db p s1 n1).1 = true) :
    add_post (add_post db p s1 n1).2 q s2 n2 = (false, (add_post db p s1 n1).2) := by
  obtain ⟨r, hr, hu⟩ := mem_url_after_success db p s1 n1 h
  apply add_post_dup_eq
  rw [List.find?_isSome]
  exact ⟨r, hr, by simp [hu, hurl]⟩

/-- C5 (amended): if a post with the same `url` is already present, insert
returns `False` and the store is unchanged; once an insert with a given `url`
succeeds, any immediately following insert with that `url` fails; and two
same-`url` inserts grow the store by at most one record.  (The claim's
"only the first succeeds" needs the proviso that the first insert itself can
fail — e.g. over a missing `image_url` — in which case the second same-`url`
insert may be the one that succeeds; see the counterexample.) -/
theorem add_post_duplicate_url_semantics :
    (∀ (db : DB) (p : Post) (src : String) (now : Nat),
       ((db.records.find? fun r => r.url == p.url).isSome = true) →
       add_post db p src now = (false, db))
    ∧ (∀ (db : DB) (p q : Post) (s1 s2 : String) (n1 n2 : Nat),
         p.url = q.url →
         (add_post db p s1 n1).1 = true →
         (add_post (add_post db p s1 n1).2 q s2 n2).1 = false)
    ∧ (∀ (db : DB) (p q : Post) (s1 s2 : String) (n1 n2 : Nat),
         p.url = q.url →
         (add_post (add_post db p s1 n1).2 q s2 n2).2.records.length ≤
           db.records.length + 1) := by
  refine ⟨add_post_dup_eq, ?_, ?_⟩
  · intro db p q s1 s2 n1 n2 hurl h
    rw [add_post_second_dup_eq db p q s1 s2 n1 n2 hurl h]
  · intro db p q s1 s2 n1 n2 hurl
    cases h1 : (add_post db p s1 n1).1
    · have hle1 := add_post_length_of_false db p s1 n1 h1
      have hle2 := add_post_length_le (add_post db p s1 n1).2 q s2 n2
      omega
    · rw [add_post_second_dup_eq db p q s1 s2 n1 n2 hurl h1]
      exact add_post_length_le db p s1 n1

/-- C5 counterexample: the first insert of url `u` fails (its post has no
`image_url`, so the `NOT NULL` insert fails after the duplicate check), and a
second insert with the same url then succeeds — so of two same-`url` inserts
it is not always the first that succeeds. -/
theorem add_post_duplicate_url_counterexample :
    (add_post (DB.mk [] 5)
        { title := "t", desc := "d", url := "u", created_at := some 3 } "s" 1).1 = false ∧
    (add_post
        (add_post (DB.mk [] 5)
          { title := "t", desc := "d", url := "u", created_at := some 3 } "s" 1).2
        (samplePost "u" 4) "s" 2).1 = true := by
  decide

/-- C5 witness: concrete duplicate-url behaviour. -/
theorem add_post_duplicate_url_witness :
    (add_post (DB.mk [sampleRec "u" 3] 5) (samplePost "u" 9) "s" 1 =
      (false, DB.mk [sampleRec "u" 3] 5)) ∧
    ((add_post (add_post (DB.mk [] 5) (samplePost "u" 1) "s" 1).2
        (samplePost "u" 2) "s" 2).1 = false) ∧
    ((add_post (add_post (DB.mk [] 5) (samplePost "u" 1) "s" 1).2
        (samplePost "u" 2) "s" 2).2.records.length ≤ (DB.mk [] 5).records.length + 1) := by
  refine ⟨?_, ?_, ?_⟩
  · exact add_post_duplicate_url_semantics.1 (DB.mk [sampleRec "u" 3] 5)
      (samplePost "u" 9) "s" 1 (by decide)
  · exact add_post_duplicate_url_semantics.2.1 (DB.mk [] 5)
      (samplePost "u" 1) (samplePost "u" 2) "s" "s" 1 2 rfl (by decide)
  · exact add_post_duplicate_url_semantics.2.2 (DB.mk [] 5)
      (samplePost "u" 1) (samplePost "u" 2) "s" "s" 1 2 rfl

theorem process_status_fold :
    ∀ (batch : List Post) (db : DB),
      (batch.foldl (fun d post => (update_post_status d post.url "processing").2) db).records =
        db.records.map (fun r =>
          if batch.any (fun p => p.url == r.url) then { r with status := "processing" } else r)
  | [], db => by simp
  | p :: rest, db => by
      have ih := process_status_fold rest (update_post_status db p.url "processing").2
      simp only [List.foldl_cons]
      rw [ih]
      simp only [update_post_status, List.map_map]
      apply List.map_congr_left
      intro r hr
      by_cases h : r.url = p.url
      · have hb1 : (r.url == p.url) = true := by simp [h]
        have hb2 : (p.url == r.url) = true := by simp [h]
        simp only [Function.comp, hb1, if_true, List.any_cons, hb2, Bool.true_or]
        split <;> rfl
      · have hb1 : (r.url == p.url) = false := by simp [h]
        have hb2 : (p.url == r.url) = false := by
          simp only [beq_eq_false_iff_ne, ne_eq]
          exact fun e => h e.symm
        simp only [Function.comp, hb1, Bool.false_eq_true, if_false, List.any_cons,
          hb2, Bool.false_or]

theorem mem_get_all_posts_queued {db : DB} {p : Post} :
    p ∈ get_all_posts db none (some "queued") none ↔
      ∃ r, r ∈ db.records ∧ r.status = "queued" ∧ p = recordToPostFull r := by
  unfold get_all_posts
  rw [List.mem_map]
  constructor
  · rintro ⟨r, hr, rfl⟩
    rw [mem_sortDesc, List.mem_filter] at hr
    refine ⟨r, hr.1, ?_, rfl⟩
    have := hr.2
    simp [rowMatches] at this
    exact this
  · rintro ⟨r, hr, hs, rfl⟩
    refine ⟨r, ?_, rfl⟩
    rw [mem_sortDesc, List.mem_filter]
    exact ⟨hr, by simp [rowMatches, hs]⟩

/-- C2 (amended): `process_posts` (the pop of the queue) lists all posts with
status `'queued'`, updates each of their statuses in the store to
`'processing'` — not `'processed'` — and returns the full pre-update
snapshot; a second pop called immediately afterwards with no intervening
inserts returns an empty batch. -/
theorem process_posts_spec (db : DB) (h : wfDB db) :
    (∀ p, p ∈ (process_posts db).1 ↔
        ∃ r, r ∈ db.records ∧ r.status = "queued" ∧ p = recordToPostFull r)
    ∧ ((process_posts db).2.records =
        db.records.map (fun r =>
          if r.status = "queued" then { r with status := "processing" } else r))
    ∧ (process_posts (process_posts db).2).1 = [] := by
  have hrecords : (process_posts db).2.records =
      db.records.map (fun r =>
        if r.status = "queued" then { r with status := "processing" } else r) := by
    show ((get_all_posts db none (some "queued") none).foldl
        (fun d post => (update_post_status d post.url "processing").2) db).records = _
    rw [process_status_fold]
    apply List.map_congr_left
    intro r hr
    by_cases hq : r.status = "queued"
    · have hany : ((get_all_posts db none (some "queued") none).any
          fun p => p.url == r.url) = true := by
        rw [List.any_eq_true]
        exact ⟨recordToPostFull r, mem_get_all_posts_queued.mpr ⟨r, hr, hq, rfl⟩,
          by simp [recordToPostFull]⟩
      simp [hany, hq]
    · have hany : ((get_all_posts db none (some "queued") none).any
          fun p => p.url == r.url) = false := by
        rw [List.any_eq_false]
        intro p hp
        obtain ⟨q, hqmem, hqs, rfl⟩ := mem_get_all_posts_queued.mp hp
        simp only [recordToPostFull]
        intro he
        have hqr : q = r := List.inj_on_of_nodup_map h hqmem hr (by simpa using he)
        exact hq (hqr ▸ hqs)
      simp [hany, hq]
  refine ⟨fun p => mem_get_all_posts_queued, hrecords, ?_⟩
  have hfilter : ((process_posts db).2.records.filter
      (rowMatches none (some "queued") none)) = [] := by
    rw [List.filter_eq_nil_iff]
    intro a ha
    rw [hrecords] at ha
    obtain ⟨r, hr, rfl⟩ := List.mem_map.mp ha
    by_cases hq : r.status = "queued" <;> simp [hq, rowMatches]
  show get_all_posts (process_posts db).2 none (some "queued") none = []
  unfold get_all_posts
  rw [hfilter]
  rfl

/-- C2 counterexample: popping a store holding one queued post leaves that
post with stored status `'processing'`, not `'processed'`. -/
theorem process_posts_counterexample :
    ((process_posts (DB.mk [sampleRec "u" 3] 10)).2.records.map (fun r => r.status)) =
      ["processing"] ∧
    ¬ (((process_posts (DB.mk [sampleRec "u" 3] 10)).2.records.map (fun r => r.status)) =
      ["processed"]) := by
  constructor
  · rfl
  · decide

/-- C2 witness: concrete pop behaviour on a one-row store. -/
theorem process_posts_witness :
    wfDB (DB.mk [sampleRec "u" 3] 10) ∧
    (process_posts (process_posts (DB.mk [sampleRec "u" 3] 10)).2).1 = [] :=
  ⟨by unfold wfDB; decide,
   (process_posts_spec (DB.mk [sampleRec "u" 3] 10) (by unfold wfDB; decide)).2.2⟩

theorem add_post_none_image (db : DB) (p : Post) (src : String) (now : Nat)
    (h : p.image_url = none) : (add_post db p src now).1 = false := by
  unfold add_post
  by_cases hdup : ((db.records.find? fun r => r.url == p.url).isSome = true)
  · simp [hdup]
  · simp [hdup, h]

theorem add_post_false_cases (db : DB) (p : Post) (src : String) (now : Nat)
    (h : (add_post db p src now).1 = false) :
    ((db.records.find? fun r => r.url == p.url).isSome = true) ∨ p.image_url = none := by
  unfold add_post at h
  by_cases hdup : ((db.records.find? fun r => r.url == p.url).isSome = true)
  · exact Or.inl hdup
  · cases himg : p.image_url
    · exact Or.inr rfl
    · simp [hdup, himg] at h

theorem get_post_by_url_isSome {db : DB} {u : String} :
    (get_post_by_url db u).isSome = true ↔ ∃ r ∈ db.records, r.url = u := by
  simp [get_post_by_url, List.find?_isSome]

theorem add_post_fresh (db : DB) (p : Post) (src : String) (now : Nat)
    (hdup : ((db.records.find? fun r => r.url == p.url).isSome) = false)
    (hroom : db.records.length < db.max_posts) :
    add_post db p src now =
      (p.image_url.isSome, { db with records := db.records ++ newRecords p src now }) := by
  unfold add_post
  have hfull : ¬ db.max_posts ≤ db.records.length := by omega
  cases himg : p.image_url <;> simp [hdup, hfull, himg, newRecords]

theorem add_news_records_aux :
    ∀ (posts : List Post) (db : DB) (src : String) (now : Nat),
      db.records.length + posts.length ≤ db.max_posts →
      (add_news db posts src now).2.records =
        db.records ++
          ((add_news db posts src now).1.flatMap (fun p => newRecords p src now)) ∧
      (add_news db posts src now).2.max_posts = db.max_posts
  | [], db, src, now => fun _ => by simp [add_news]
  | p :: rest, db, src, now => fun H => by
      have Hlen : db.records.length + rest.length + 1 ≤ db.max_posts := by
        simp at H
        omega
      by_cases h1 : ((get_post_by_url db p.url).isSome = true)
      · have ih := add_news_records_aux rest db src now (by omega)
        simpa [add_news, h1] using ih
      · have hroom : db.records.length < db.max_posts := by omega
        have hdup : ((db.records.find? fun r => r.url == p.url).isSome) = false := by
          rw [Bool.eq_false_iff]
          intro hcon
          exact h1 (by simpa [get_post_by_url] using hcon)
        have hfresh := add_post_fresh db { p with status := "queued" } src now hdup hroom
        have e1 : add_news db (p :: rest) src now =
            ((if (add_post db { p with status := "queued" } src now).1 = true then
                { p with status := "queued" } ::
                  (add_news (add_post db { p with status := "queued" } src now).2 rest src now).1
              else (add_news (add_post db { p with status := "queued" } src now).2 rest src now).1),
             (add_news (add_post db { p with status := "queued" } src now).2 rest src now).2) := by
          simp [add_news, h1]
        have hstep2 : (add_post db { p with status := "queued" } src now).2 =
            { db with
                records := db.records ++ newRecords { p with status := "queued" } src now } := by
          rw [hfresh]
        have hnr := newRecords_length_le { p with status := "queued" } src now
        have hlen2 : (add_post db { p with status := "queued" } src now).2.records.length +
            rest.length ≤ (add_post db { p with status := "queued" } src now).2.max_posts := by
          rw [hstep2]
          simp
          omega
        have ih := add_news_records_aux rest (add_post db { p with status := "queued" } src now).2
          src now hlen2
        rw [e1]
        rcases Option.eq_none_or_eq_some p.image_url with hb | ⟨img, hb⟩
        · have hsf : (add_post db { p with status := "queued" } src now).1 = false :=
            add_post_none_image _ _ _ _ hb
          have hempty : newRecords { p with status := "queued" } src now = [] := by
            simp [newRecords, hb]
          rw [hsf]
          simp only [Bool.false_eq_true, if_false]
          refine ⟨?_, ?_⟩
          · rw [ih.1, hstep2]
            simp [hempty]
          · rw [ih.2, add_post_max_posts]
        · have hst : (add_post db { p with status := "queued" } src now).1 = true := by
            rw [hfresh]
            simp [show p.image_url = some img from hb]
          rw [hst]
          simp only [if_true, List.flatMap_cons]
          refine ⟨?_, ?_⟩
          · rw [ih.1, hstep2]
            simp [List.append_assoc]
          · rw [ih.2, add_post_max_posts]

theorem add_news_single_again_empty (db : DB) (p : Post) (s1 s2 : String) (n1 n2 : Nat) :
    (add_news (add_news db [p] s1 n1).2 [p] s2 n2).1 = [] := by
  by_cases h1 : ((get_post_by_url db p.url).isSome = true)
  · have e1 : add_news db [p] s1 n1 = ([], db) := by
      simp [add_news, h1]
    rw [e1]
    simp [add_news, h1]
  · have e1 : add_news db [p] s1 n1 =
        ((if (add_post db { p with status := "queued" } s1 n1).1 = true then
            [{ p with status := "queued" }] else []),
         (add_post db { p with status := "queued" } s1 n1).2) := by
      simp [add_news, h1]
    rw [e1]
    cases hstep : (add_post db { p with status := "queued" } s1 n1).1
    · by_cases h2 : ((get_post_by_url (add_post db { p with status := "queued" } s1 n1).2 p.url).isSome = true)
      · simp [add_news, h2]
      · have himg : p.image_url = none := by
          rcases add_post_false_cases db { p with status := "queued" } s1 n1 hstep with hdup | himg
          · exact absurd (by simpa [get_post_by_url] using hdup) h1
          · exact himg
        have hstep2 : (add_post (add_post db { p with status := "queued" } s1 n1).2
            { p with status := "queued" } s2 n2).1 = false :=
          add_post_none_image _ _ _ _ himg
        simp [add_news, h2, hstep2]
    · have h2 : ((get_post_by_url (add_post db { p with status := "queued" } s1 n1).2 p.url).isSome = true) := by
        obtain ⟨r, hr, hu⟩ := mem_url_after_success db { p with status := "queued" } s1 n1 hstep
        rw [get_post_by_url_isSome]
        exact ⟨r, hr, hu⟩
      simp [add_news, h2]

theorem newRecords_mem_fields (p : Post) (src : String) (now : Nat) :
    ∀ rec ∈ newRecords p src now,
      rec.url = p.url ∧ rec.status = p.status ∧ rec.source = src ∧
      rec.full_text = p.full_text ∧ rec.created_at = p.created_at.getD now := by
  intro rec hrec
  rcases Option.eq_none_or_eq_some p.image_url with hb | ⟨img, hb⟩
  · simp [newRecords, hb] at hrec
  · simp [newRecords, hb] at hrec
    subst hrec
    exact ⟨rfl, rfl, rfl, rfl, rfl⟩

theorem add_post_mem_new (db : DB) (p : Post) (src : String) (now : Nat)
    (hdup : ((db.records.find? fun r => r.url == p.url).isSome) = false) :
    ∀ rec ∈ newRecords p src now, rec ∈ (add_post db p src now).2.records := by
  intro rec hrec
  rcases Option.eq_none_or_eq_some p.image_url with hb | ⟨img, hb⟩
  · simp [newRecords, hb] at hrec
  · unfold add_post
    simp only [hdup, Bool.false_eq_true, if_false, hb]
    split <;> exact List.mem_append_right _ hrec

theorem removeOldest_subset (l : List DBRecord) : removeOldest l ⊆ l := by
  unfold removeOldest
  cases minCreated l
  · exact fun _ h => h
  · exact List.eraseP_subset _

theorem add_post_mem_cases (db : DB) (p : Post) (src : String) (now : Nat) (r : DBRecord)
    (h : r ∈ (add_post db p src now).2.records) :
    r ∈ db.records ∨ r ∈ newRecords p src now := by
  unfold add_post at h
  by_cases hdup : ((db.records.find? fun r => r.url == p.url).isSome = true)
  · simp [hdup] at h
    exact Or.inl h
  · rcases Option.eq_none_or_eq_some p.image_url with hb | ⟨img, hb⟩
    · simp [hdup, hb] at h
      split at h
      · exact Or.inl (removeOldest_subset db.records h)
      · exact Or.inl h
    · simp only [hdup, Bool.false_eq_true, if_false, hb] at h
      split at h <;> rcases List.mem_append.mp h with h1 | h1
      · exact Or.inl (removeOldest_subset db.records h1)
      · exact Or.inr h1
      · exact Or.inl h1
      · exact Or.inr h1

theorem add_news_mem_cases :
    ∀ (posts : List Post) (db : DB) (src : String) (now : Nat) (r : DBRecord),
      r ∈ (add_news db posts src now).2.records →
      r ∈ db.records ∨ (r.status = "queued" ∧ r.source = src)
  | [], db, src, now, r => fun h => Or.inl (by simpa [add_news] using h)
  | p :: rest, db, src, now, r => fun h => by
      by_cases h1 : ((get_post_by_url db p.url).isSome = true)
      · rw [show add_news db (p :: rest) src now = add_news db rest src now by
          simp [add_news, h1]] at h
        exact add_news_mem_cases rest db src now r h
      · have e2 : (add_news db (p :: rest) src now).2 =
            (add_news (add_post db { p with status := "queued" } src now).2 rest src now).2 := by
          simp [add_news, h1]
        rw [e2] at h
        rcases add_news_mem_cases rest (add_post db { p with status := "queued" } src now).2
            src now r h with hmem | hq
        · rcases add_post_mem_cases db { p with status := "queued" } src now r hmem with hdb | hnew
          · exact Or.inl hdb
          · obtain ⟨_, hst, hsrc, _, _⟩ := newRecords_mem_fields _ src now r hnew
            exact Or.inr ⟨hst, hsrc⟩
        · exact Or.inr hq

/-- C7 (amended): an accepted insert persists the record with the status
carried by the in-memory post (the dataclass default is `'queued'`, but a
post carrying another status is stored with that status — see the
counterexample) and with the given source tag; posts inserted through the
queue's `add_news` are always stored with status `'queued'`, because
`add_news` sets `post.status = 'queued'` before inserting. -/
theorem add_post_status_passthrough :
    (∀ (db : DB) (p : Post) (src : String) (now : Nat),
       ((db.records.find? fun r => r.url == p.url).isSome) = false →
       ∀ rec ∈ newRecords p src now,
         rec.status = p.status ∧ rec.source = src ∧ rec.url = p.url ∧
         rec ∈ (add_post db p src now).2.records)
    ∧ (∀ (posts : List Post) (db : DB) (src : String) (now : Nat) (r : DBRecord),
         r ∈ (add_news db posts src now).2.records →
         r ∈ db.records ∨ (r.status = "queued" ∧ r.source = src)) := by
  constructor
  · intro db p src now hdup rec hrec
    obtain ⟨hu, hs, hsrc, _, _⟩ := newRecords_mem_fields p src now rec hrec
    exact ⟨hs, hsrc, hu, add_post_mem_new db p src now hdup rec hrec⟩
  · exact fun posts db src now r h => add_news_mem_cases posts db src now r h

/-- Concrete post carrying a non-default status, as built by
`tests/test_news_queue_similarity.py` (`post.status = 'processed'` before
`db_handler.add_post(post, "test")`). -/
def processedSamplePost : Post :=
  { title := "t", desc := "d", url := "u", image_url := some "i",
    created_at := some 3, status := "processed" }

/-- C7 counterexample: an accepted insert of an in-memory post carrying
status `'processed'` persists the record with status `'processed'`, not
`'queued'` — `add_post` reads `getattr(post, 'status', 'queued')` and the
dataclass attribute always exists. -/
theorem add_post_status_counterexample :
    (add_post (DB.mk [] 5) processedSamplePost "bbc" 9).1 = true ∧
    ((add_post (DB.mk [] 5) processedSamplePost "bbc" 9).2.records.map
        (fun r => r.status)) = ["processed"] ∧
    ¬ (((add_post (DB.mk [] 5) processedSamplePost "bbc" 9).2.records.map
        (fun r => r.status)) = ["queued"]) := by
  refine ⟨rfl, rfl, by decide⟩

/-- Row persisted for `processedSamplePost` by an insert tagged `"bbc"` at
time 9. -/
def processedSampleRec : DBRecord :=
  { url := "u", title := "t", desc := "d", image_url := "i",
    english_summary := none, ukrainian_title := none, ukrainian_summary := none,
    created_at := 3, source := "bbc", status := "processed", full_text := none }

/-- C7 witness: concrete passthrough and queue-path facts. -/
theorem add_post_status_witness :
    (processedSampleRec.status = processedSamplePost.status ∧
      processedSampleRec.source = "bbc" ∧
      processedSampleRec.url = processedSamplePost.url ∧
      processedSampleRec ∈ (add_post (DB.mk [] 5) processedSamplePost "bbc" 9).2.records) ∧
    (sampleRec "u" 3 ∈ (DB.mk [sampleRec "u" 3] 5).records ∨
      ((sampleRec "u" 3).status = "queued" ∧ (sampleRec "u" 3).source = "s")) := by
  constructor
  · exact add_post_status_passthrough.1 (DB.mk [] 5) processedSamplePost "bbc" 9
      (by decide) processedSampleRec (by decide)
  · exact add_post_status_passthrough.2 [samplePost "v" 1] (DB.mk [sampleRec "u" 3] 5)
      "s" 1 (sampleRec "u" 3) (by decide)

/-- C8 (amended): `update_post` is keyed by `url` and returns `False` when
the `url` does not exist (leaving the store unchanged); but it overwrites not
only the mutable fields — it also overwrites `created_at` with the given
post's `created_at` (or the current time when absent), so `created_at` is NOT
immutable under `update_post`.  Rows with other urls are untouched, and the
matching row keeps its `url` and `source`. -/
theorem update_post_spec :
    (∀ (db : DB) (p : Post) (now : Nat),
       p.image_url.isSome = true →
       (update_post db p now).1 = (db.records.find? (fun r => r.url == p.url)).isSome ∧
       (update_post db p now).2.records =
         db.records.map (fun r => if r.url == p.url then overwriteRecord r p now else r))
    ∧ (∀ (db : DB) (p : Post) (now : Nat) (r : DBRecord),
         p.image_url.isSome = true → r ∈ db.records →
         (¬ r.url = p.url → r ∈ (update_post db p now).2.records) ∧
         (r.url = p.url →
           overwriteRecord r p now ∈ (update_post db p now).2.records ∧
           (overwriteRecord r p now).url = r.url ∧
           (overwriteRecord r p now).source = r.source ∧
           (overwriteRecord r p now).created_at = p.created_at.getD now))
    ∧ (∀ (db : DB) (p : Post) (now : Nat),
         ((db.records.find? (fun r => r.url == p.url)).isSome) = false →
         update_post db p now = (false, db)) := by
  refine ⟨?_, ?_, ?_⟩
  · intro db p now himg
    rcases Option.eq_none_or_eq_some p.image_url with hb | ⟨img, hb⟩
    · rw [hb] at himg
      simp at himg
    · unfold update_post
      rw [hb]
      exact ⟨rfl, rfl⟩
  · intro db p now r himg hr
    rcases Option.eq_none_or_eq_some p.image_url with hb | ⟨img, hb⟩
    · rw [hb] at himg
      simp at himg
    · have hrec : (update_post db p now).2.records =
          db.records.map (fun s => if s.url == p.url then overwriteRecord s p now else s) := by
        unfold update_post
        rw [hb]
      constructor
      · intro hne
        rw [hrec]
        have : (fun s => if s.url == p.url then overwriteRecord s p now else s) r = r := by
          simp [hne]
        exact this ▸ List.mem_map_of_mem _ hr
      · intro he
        refine ⟨?_, rfl, rfl, rfl⟩
        rw [hrec]
        have : (fun s => if s.url == p.url then overwriteRecord s p now else s) r =
            overwriteRecord r p now := by
          simp [he]
        exact this ▸ List.mem_map_of_mem _ hr
  · intro db p now hfind
    rcases Option.eq_none_or_eq_some p.image_url with hb | ⟨img, hb⟩
    · unfold update_post
      rw [hb]
    · have hall : ∀ r ∈ db.records, ¬ ((r.url == p.url) = true) := by
        intro r hr hcon
        have : ((db.records.find? (fun s => s.url == p.url)).isSome = true) := by
          rw [List.find?_isSome]
          exact ⟨r, hr, hcon⟩
        rw [hfind] at this
        exact absurd this (by simp)
      unfold update_post
      rw [hb]
      have hmap : db.records.map (fun r => if r.url == p.url then overwriteRecord r p now else r) =
          db.records := by
        have := List.map_congr_left (l := db.records)
          (f := fun r => if r.url == p.url then overwriteRecord r p now else r) (g := id)
          (fun r hr => by simp [hall r hr])
        simpa using this
      rw [hfind, hmap]

/-- C8 counterexample: updating a stored post (row `created_at = 1`) with an
in-memory post carrying `created_at = 5` overwrites the stored `created_at`,
which the claim says is immutable. -/
theorem update_post_counterexample :
    ((update_post (DB.mk [sampleRec "u" 1] 5) (samplePost "u" 5) 9).2.records.map
        (fun r => r.created_at)) = [5] ∧
    ¬ (((update_post (DB.mk [sampleRec "u" 1] 5) (samplePost "u" 5) 9).2.records.map
        (fun r => r.created_at)) = [1]) := by
  refine ⟨rfl, by decide⟩

/-- C8 witness: concrete update behaviour. -/
theorem update_post_witness :
    ((update_post (DB.mk [sampleRec "u" 1] 5) (samplePost "u" 5) 9).1 =
        ((DB.mk [sampleRec "u" 1] 5).records.find?
          (fun r => r.url == (samplePost "u" 5).url)).isSome) ∧
    (overwriteRecord (sampleRec "u" 1) (samplePost "u" 5) 9).created_at =
      ((samplePost "u" 5).created_at.getD 9) ∧
    (update_post (DB.mk [sampleRec "u" 1] 5) (samplePost "w" 5) 9 =
      (false, DB.mk [sampleRec "u" 1] 5)) := by
  refine ⟨?_, ?_, ?_⟩
  · exact (update_post_spec.1 (DB.mk [sampleRec "u" 1] 5) (samplePost "u" 5) 9 (by decide)).1
  · exact ((update_post_spec.2.1 (DB.mk [sampleRec "u" 1] 5) (samplePost "u" 5) 9
      (sampleRec "u" 1) (by decide) (by decide)).2 (by decide)).2.2.2
  · exact update_post_spec.2.2 (DB.mk [sampleRec "u" 1] 5) (samplePost "w" 5) 9 (by decide)

/-- Reference row for the C3 scenario: a `processed` post 12 hours old
(created 56800, "now" being 100000), well inside the one-day window. -/
def windowRefRec : DBRecord :=
  { url := "r", title := "t1", desc := "d1", image_url := "i",
    english_summary := none, ukrainian_title := none, ukrainian_summary := none,
    created_at := 56800, source := "bbc", status := "processed", full_text := none }

/-- Candidate for the C3 scenario: identical title and description to
`windowRefRec` (a perfect near-duplicate) but a different `url`. -/
def nearDuplicateCand : Post :=
  { title := "t1", desc := "d1", url := "c", image_url := some "i",
    created_at := some 99000 }

/-- C3 evaluation at the failing input: even though `get_recent_posts`
would return the in-window `processed` reference post, `add_news` inserts
the near-duplicate candidate — it never fetches the similarity reference set
and never calls `filter_similar_posts` (the `existing_posts = get_all_posts()`
it does fetch is unused). -/
theorem add_news_no_similarity_filter_eval :
    (nearDuplicateCand.title = windowRefRec.title ∧
      nearDuplicateCand.desc = windowRefRec.desc ∧
      ¬ nearDuplicateCand.url = windowRefRec.url) ∧
    ((get_recent_posts (DB.mk [windowRefRec] 100) 100000 1 none (some "processed")).map
        (fun p => p.url) = ["r"]) ∧
    ((add_news (DB.mk [windowRefRec] 100) [nearDuplicateCand] "bbc" 100000).1.map
        (fun p => p.url) = ["c"]) := by
  refine ⟨⟨rfl, rfl, by decide⟩, rfl, rfl⟩

/-- Modelled from the spec: the text whose embedding the Similarity Filter is
claimed to compare — the concatenation of a post's title and description.
(The source `filter_similar_posts` performs no embedding at all.) -/
def titleDescText (p : Post) : String :=
  p.title ++ " " ++ p.desc

/-- Modelled from the spec: the maximum similarity of a candidate against all
reference posts under a given similarity function on texts (0 over an empty
reference set; the claim only quantifies over non-empty ones). -/
def maxSimAgainst (sim : String → String → ℚ) (p : Post) (refs : List Post) : ℚ :=
  (refs.map (fun r => sim (titleDescText p) (titleDescText r))).foldr max 0

/-- Modelled from the spec: claim C4 as stated — for every candidate batch,
non-empty reference set and threshold in `[0,1]`, the filter keeps a
candidate iff its maximum similarity is strictly below the threshold —
relative to a similarity function `sim` standing for the cosine similarity of
the external embedding. -/
def similarityFilterClaim (sim : String → String → ℚ) : Prop :=
  ∀ (cands refs : List Post) (t : ℚ), 0 ≤ t → t ≤ 1 → refs ≠ [] →
    ∀ p ∈ cands, (p ∈ filter_similar_posts cands refs t ↔ maxSimAgainst sim p refs < t)

/-- Cosine similarity of the one-hot embedding of texts: 1 on identical
texts, 0 otherwise.  Any genuine cosine similarity assigns 1 to a text
compared with itself, which is all the refutation needs. -/
def simIndicator (x y : String) : ℚ :=
  if x = y then 1 else 0

theorem similarityFilterClaim_fails (sim : String → String → ℚ)
    (hsim : ∀ x, sim x x = 1) : ¬ similarityFilterClaim sim := by
  intro h
  have hmem : samplePost "u" 1 ∈
      filter_similar_posts [samplePost "u" 1] [samplePost "u" 1] (1 / 2) := by
    simp [filter_similar_posts]
  have hlt := (h [samplePost "u" 1] [samplePost "u" 1] (1 / 2)
    (by norm_num) (by norm_num) (by simp) (samplePost "u" 1) (by simp)).mp hmem
  have hmax : maxSimAgainst sim (samplePost "u" 1) [samplePost "u" 1] = 1 := by
    simp [maxSimAgainst, hsim]
  rw [hmax] at hlt
  norm_num at hlt

/-- C4 counterexample: the claimed keep-iff-below-threshold behaviour fails
at a concrete input (a candidate identical to the single reference post,
threshold 1/2): under any similarity assigning 1 to identical texts — in
particular the one-hot cosine similarity `simIndicator` — the candidate's
maximum similarity is 1, yet `filter_similar_posts` keeps it. -/
theorem filter_similar_posts_counterexample : ¬ similarityFilterClaim simIndicator :=
  similarityFilterClaim_fails simIndicator (fun x => by simp [simIndicator])

/-- C4 (amended): `filter_similar_posts` is a placeholder that returns all
candidates unchanged, for every reference set and threshold; no candidate is
ever filtered out, whatever its similarity to the reference posts. -/
theorem filter_similar_posts_placeholder (new_posts existing_posts : List Post) (t : ℚ) :
    filter_similar_posts new_posts existing_posts t = new_posts :=
  rfl

/-- C9: the translation call returns either all four fields present or the
explicit all-absent failure `(None, None, None, None)` — never a partial
mix — and whenever any of the four fields is missing or empty, the publish
guard of the pipeline is false, so the post is never sent to the content
API. -/
theorem get_article_translation_all_or_nothing :
    (∀ resp : TranslationResponse,
       (∃ a b c d, get_article_translation resp = (some a, some b, some c, some d)) ∨
       get_article_translation resp = (none, none, none, none))
    ∧ (∀ resp : TranslationResponse,
         ((get_article_translation resp).1 = none ∨
          (get_article_translation resp).1 = some "" ∨
          (get_article_translation resp).2.1 = none ∨
          (get_article_translation resp).2.1 = some "" ∨
          (get_article_translation resp).2.2.1 = none ∨
          (get_article_translation resp).2.2.1 = some "" ∨
          (get_article_translation resp).2.2.2 = none ∨
          (get_article_translation resp).2.2.2 = some "") →
         publishReached resp = false) := by
  constructor
  · intro resp
    cases resp with
    | parsed a b c d =>
      cases a <;> cases b <;> cases c <;> cases d <;> simp [get_article_translation]
    | regexFallback a b c d =>
      cases a <;> cases b <;> cases c <;> cases d <;> simp [get_article_translation]
    | failure => exact Or.inr rfl
  · intro resp h
    unfold publishReached
    rcases h with h | h | h | h | h | h | h | h <;> simp [h, truthyStr]

/-- C9 witness: a parsed response missing one field yields the all-absent
failure tuple, and the pipeline's publish guard is false on it. -/
theorem get_article_translation_witness :
    ((get_article_translation
        (TranslationResponse.parsed (some "a") none (some "c") (some "d"))).1 = none) ∧
    publishReached (TranslationResponse.parsed (some "a") none (some "c") (some "d")) = false :=
  ⟨rfl, get_article_translation_all_or_nothing.2
    (TranslationResponse.parsed (some "a") none (some "c") (some "d")) (Or.inl rfl)⟩

/-- C10: the point lookup `get_post_by_url` always returns a `Post` whose
`full_text` is `None` (its `SELECT` list omits the `full_text` column), even
though the `full_text` column is populated on insert and is returned by the
list operation `get_all_posts`. -/
theorem get_post_by_url_omits_full_text :
    (∀ (db : DB) (u : String) (p : Post),
       get_post_by_url db u = some p → p.full_text = none)
    ∧ (∀ (db : DB) (post : Post) (src : String) (now : Nat) (rec : DBRecord),
         rec ∈ newRecords post src now →
         rec.full_text = post.full_text ∧
           (((db.records.find? fun r => r.url == post.url).isSome) = false →
             rec ∈ (add_post db post src now).2.records))
    ∧ (∀ (db : DB) (r : DBRecord), r ∈ db.records →
         ∃ p, p ∈ get_all_posts db none none none ∧ p.url = r.url ∧
           p.full_text = r.full_text) := by
  refine ⟨?_, ?_, ?_⟩
  · intro db u p h
    unfold get_post_by_url at h
    obtain ⟨r, _, rfl⟩ := Option.map_eq_some'.mp h
    rfl
  · intro db post src now rec hrec
    obtain ⟨_, _, _, hft, _⟩ := newRecords_mem_fields post src now rec hrec
    exact ⟨hft, fun hdup => add_post_mem_new db post src now hdup rec hrec⟩
  · intro db r hr
    refine ⟨recordToPostFull r, ?_, rfl, rfl⟩
    unfold get_all_posts
    apply List.mem_map_of_mem
    rw [mem_sortDesc, List.mem_filter]
    exact ⟨hr, by simp [rowMatches]⟩

/-- Row with a non-empty stored `full_text`, for the C10 witness. -/
def fullTextRec : DBRecord :=
  { url := "u", title := "t", desc := "d", image_url := "i",
    english_summary := none, ukrainian_title := none, ukrainian_summary := none,
    created_at := 3, source := "s", status := "processed", full_text := some "body" }

/-- C10 witness: the stored row has `full_text = some "body"`, yet the point
lookup returns a post with `full_text = none`; the list operation returns the
stored `full_text`. -/
theorem get_post_by_url_full_text_witness :
    (get_post_by_url (DB.mk [fullTextRec] 5) "u" =
        some (recordToPostNoFullText fullTextRec)) ∧
    (recordToPostNoFullText fullTextRec).full_text = none ∧
    fullTextRec.full_text = some "body" ∧
    (recordToPostFull fullTextRec).full_text = some "body" := by
  refine ⟨rfl, ?_, rfl, rfl⟩
  exact get_post_by_url_omits_full_text.1 (DB.mk [fullTextRec] 5) "u"
    (recordToPostNoFullText fullTextRec) rfl

theorem add_post_result_true (db : DB) (p : Post) (src : String) (now : Nat)
    (hdup : ((db.records.find? fun r => r.url == p.url).isSome) = false)
    (himg : p.image_url.isSome = true) :
    (add_post db p src now).1 = true := by
  unfold add_post
  rcases Option.eq_none_or_eq_some p.image_url with hb | ⟨img, hb⟩
  · rw [hb] at himg
    simp at himg
  · simp [hdup, hb]

theorem add_post_fresh_records (db : DB) (p : Post) (src : String) (now : Nat)
    (hdup : ((db.records.find? fun r => r.url == p.url).isSome) = false) :
    (add_post db p src now).2.records =
      (if db.max_posts ≤ db.records.length then removeOldest db.records
       else db.records) ++ newRecords p src now := by
  unfold add_post
  rcases Option.eq_none_or_eq_some p.image_url with hb | ⟨img, hb⟩
  · simp only [hdup, Bool.false_eq_true, if_false, hb, newRecords]
    split <;> simp
  · simp only [hdup, Bool.false_eq_true, if_false, hb]
    split <;> simp

theorem add_news_append :
    ∀ (posts1 : List Post) (db : DB) (posts2 : List Post) (src : String) (now : Nat),
      add_news db (posts1 ++ posts2) src now =
        ((add_news db posts1 src now).1 ++
           (add_news (add_news db posts1 src now).2 posts2 src now).1,
         (add_news (add_news db posts1 src now).2 posts2 src now).2)
  | [], db, posts2, src, now => by simp [add_news]
  | p :: rest, db, posts2, src, now => by
      by_cases h1 : ((get_post_by_url db p.url).isSome = true)
      · have ih := add_news_append rest db posts2 src now
        simp only [List.cons_append]
        simpa [add_news, h1] using ih
      · have ih := add_news_append rest (add_post db { p with status := "queued" } src now).2
          posts2 src now
        simp only [List.cons_append]
        simp only [add_news, h1, Bool.false_eq_true, if_false]
        rw [ih]
        split <;> simp

theorem add_news_single_eq (db : DB) (p : Post) (src : String) (now : Nat) :
    add_news db [p] src now =
      (if (get_post_by_url db p.url).isSome = true then ([], db)
       else if p.image_url.isSome = true then
         ([{ p with status := "queued" }],
          (add_post db { p with status := "queued" } src now).2)
       else ([], (add_post db { p with status := "queued" } src now).2)) := by
  by_cases h1 : ((get_post_by_url db p.url).isSome = true)
  · simp [add_news, h1]
  · have hdup : ((db.records.find? fun r => r.url == p.url).isSome) = false := by
      rw [Bool.eq_false_iff]
      intro hcon
      exact h1 (by simpa [get_post_by_url] using hcon)
    rcases Option.eq_none_or_eq_some p.image_url with hb | ⟨img, hb⟩
    · have hsf : (add_post db { p with status := "queued" } src now).1 = false :=
        add_post_none_image _ _ _ _ hb
      rw [hb] at hsf
      simp [add_news, h1, hb, hsf]
    · have hst : (add_post db { p with status := "queued" } src now).1 = true :=
        add_post_result_true db { p with status := "queued" } src now hdup (by simp [hb])
      rw [hb] at hst
      simp [add_news, h1, hb, hst]

theorem add_news_inserted_subset :
    ∀ (posts : List Post) (db : DB) (src : String) (now : Nat) (r : DBRecord),
      r ∈ (add_news db posts src now).2.records →
      r ∈ db.records ∨
        ∃ p, p ∈ (add_news db posts src now).1 ∧ r ∈ newRecords p src now
  | [], db, src, now, r => fun h => Or.inl (by simpa [add_news] using h)
  | p :: rest, db, src, now, r => fun h => by
      by_cases h1 : ((get_post_by_url db p.url).isSome = true)
      · have e : add_news db (p :: rest) src now = add_news db rest src now := by
          simp [add_news, h1]
        rw [e] at h ⊢
        exact add_news_inserted_subset rest db src now r h
      · have e2 : (add_news db (p :: rest) src now).2 =
            (add_news (add_post db { p with status := "queued" } src now).2 rest src now).2 := by
          simp [add_news, h1]
        have e1 : (add_news db (p :: rest) src now).1 =
            (if (add_post db { p with status := "queued" } src now).1 = true then
               { p with status := "queued" } ::
                 (add_news (add_post db { p with status := "queued" } src now).2 rest src now).1
             else
               (add_news (add_post db { p with status := "queued" } src now).2 rest src now).1) := by
          simp [add_news, h1]
        rw [e2] at h
        rcases add_news_inserted_subset rest
            (add_post db { p with status := "queued" } src now).2 src now r h with
          hstep | ⟨q, hq, hqr⟩
        · rcases add_post_mem_cases db { p with status := "queued" } src now r hstep with
            hdb | hnew
          · exact Or.inl hdb
          · have himg : ({ p with status := "queued" } : Post).image_url.isSome = true := by
              rcases Option.eq_none_or_eq_some p.image_url with hb | ⟨img, hb⟩
              · simp [newRecords, hb] at hnew
              · simp [hb]
            have hdup : ((db.records.find? fun s => s.url == p.url).isSome) = false := by
              rw [Bool.eq_false_iff]
              intro hcon
              exact h1 (by simpa [get_post_by_url] using hcon)
            have hst : (add_post db { p with status := "queued" } src now).1 = true :=
              add_post_result_true db { p with status := "queued" } src now hdup himg
            refine Or.inr ⟨{ p with status := "queued" }, ?_, hnew⟩
            rw [e1, hst]
            simp
        · refine Or.inr ⟨q, ?_, hqr⟩
          rw [e1]
          split <;> simp [hq]

/-- C6: enqueueing the same post (identical `url`) twice in a row yields an
empty accepted list on the second call; and every `add_news` call — eviction
included — returns exactly the candidates newly inserted during that call:
calls decompose over the batch (the store a candidate sees is the call state
after the preceding prefix), a single candidate is accepted iff its `url` is
absent from that store and its row passes the `NOT NULL image_url` insert,
exactly then its row is what the insert appends to the store (after any
eviction), and every record of the final store is either an old record or a
row of one of the returned candidates — nothing else is ever inserted. -/
theorem add_news_dedup_idempotent :
    (∀ (db : DB) (p : Post) (s1 s2 : String) (n1 n2 : Nat),
       (add_news (add_news db [p] s1 n1).2 [p] s2 n2).1 = [])
    ∧ (∀ (posts1 : List Post) (db : DB) (posts2 : List Post) (src : String) (now : Nat),
         add_news db (posts1 ++ posts2) src now =
           ((add_news db posts1 src now).1 ++
              (add_news (add_news db posts1 src now).2 posts2 src now).1,
            (add_news (add_news db posts1 src now).2 posts2 src now).2))
    ∧ (∀ (db : DB) (p : Post) (src : String) (now : Nat),
         add_news db [p] src now =
           (if (get_post_by_url db p.url).isSome = true then ([], db)
            else if p.image_url.isSome = true then
              ([{ p with status := "queued" }],
               (add_post db { p with status := "queued" } src now).2)
            else ([], (add_post db { p with status := "queued" } src now).2)))
    ∧ (∀ (db : DB) (p : Post) (src : String) (now : Nat),
         ((db.records.find? fun r => r.url == p.url).isSome) = false →
         (add_post db p src now).2.records =
           (if db.max_posts ≤ db.records.length then removeOldest db.records
            else db.records) ++ newRecords p src now)
    ∧ (∀ (posts : List Post) (db : DB) (src : String) (now : Nat) (r : DBRecord),
         r ∈ (add_news db posts src now).2.records →
         r ∈ db.records ∨
           ∃ p, p ∈ (add_news db posts src now).1 ∧ r ∈ newRecords p src now) :=
  ⟨add_news_single_again_empty, add_news_append, add_news_single_eq,
   add_post_fresh_records, add_news_inserted_subset⟩

/-- C6 witness: concrete double enqueue, batch decomposition, accept
decision, appended rows, and no-extra-insert facts. -/
theorem add_news_dedup_witness :
    ((add_news (add_news (DB.mk [] 5) [samplePost "u" 1] "s" 1).2
        [samplePost "u" 1] "s" 2).1 = []) ∧
    (add_news (DB.mk [] 5) ([samplePost "u" 1] ++ [samplePost "v" 2]) "s" 3 =
      ((add_news (DB.mk [] 5) [samplePost "u" 1] "s" 3).1 ++
         (add_news (add_news (DB.mk [] 5) [samplePost "u" 1] "s" 3).2
           [samplePost "v" 2] "s" 3).1,
       (add_news (add_news (DB.mk [] 5) [samplePost "u" 1] "s" 3).2
         [samplePost "v" 2] "s" 3).2)) ∧
    ((add_post (DB.mk [sampleRec "a" 1] 1) (samplePost "u" 2) "s" 3).2.records =
      (if (DB.mk [sampleRec "a" 1] 1).max_posts ≤ (DB.mk [sampleRec "a" 1] 1).records.length
       then removeOldest (DB.mk [sampleRec "a" 1] 1).records
       else (DB.mk [sampleRec "a" 1] 1).records) ++ newRecords (samplePost "u" 2) "s" 3) ∧
    (sampleRec "a" 1 ∈ (DB.mk [sampleRec "a" 1] 5).records ∨
      ∃ p, p ∈ (add_news (DB.mk [sampleRec "a" 1] 5) [samplePost "u" 2] "s" 3).1 ∧
        sampleRec "a" 1 ∈ newRecords p "s" 3) := by
  refine ⟨?_, ?_, ?_, ?_⟩
  · exact add_news_dedup_idempotent.1 (DB.mk [] 5) (samplePost "u" 1) "s" "s" 1 2
  · exact add_news_dedup_idempotent.2.1 [samplePost "u" 1] (DB.mk [] 5)
      [samplePost "v" 2] "s" 3
  · exact add_news_dedup_idempotent.2.2.2.1 (DB.mk [sampleRec "a" 1] 1)
      (samplePost "u" 2) "s" 3 (by decide)
  · exact add_news_dedup_idempotent.2.2.2.2 [samplePost "u" 2] (DB.mk [sampleRec "a" 1] 5)
      "s" 3 (sampleRec "a" 1) (by decide)
